import Mathlib

/-!
Verification of the DivePlay media-session engine against its
natural-language specification.

The TypeScript sources are shallowly embedded: the pure state-update
functions of `App.tsx` become Lean functions on an explicit store state,
the persistence layer of `fileSystem.ts` becomes explicit state passing
over a folder model, and the codec pipeline of `codecService.ts` becomes
a function over an environment recording the outcome of each awaited
effect.  JavaScript numbers are modelled as rationals, file handles as
natural-number identifiers.
-/

namespace DivePlay

/-! ## Data model (src/types, src/store/playerStore.ts) -/

/-- Kind of a media file, `type: video | audio` in the TS sources. -/
inductive MediaKind where
  | video
  | audio
deriving DecidableEq, Repr

/-- Subtitle settings, `SubtitleSettings` in src/types. -/
structure SubtitleSettings where
  enabled : Bool
  fontSize : ℚ
deriving DecidableEq, Repr

/-- Player settings, `Settings` in src/types. -/
structure Settings where
  volume : ℚ
  playbackRate : ℚ
  shuffle : Bool
  loop : Bool
  subtitles : SubtitleSettings
deriving DecidableEq, Repr

/-- Default settings, `defaultSettings` in playerStore.ts. -/
def defaultSettings : Settings :=
  { volume := 1
    playbackRate := 1
    shuffle := false
    loop := false
    subtitles := { enabled := true, fontSize := 18 } }

/-- One playable file, `MediaFile` in src/types.  The
`FileSystemFileHandle` references are modelled as numeric identifiers. -/
structure MediaFile where
  name : String
  relativePath : String
  handle : ℕ
  kind : MediaKind
  subtitleHandles : List ℕ
deriving DecidableEq, Repr

/-- Persisted progress record, `PlayerState` in src/types
(the shape of .player-state.json). -/
structure PlayerState where
  lastFile : String
  lastPosition : ℚ
  settings : Settings
deriving DecidableEq, Repr

/-- The store state, `PlayerStoreState` in playerStore.ts.  The
`dirHandle` field only matters through its presence, so it is a Bool. -/
structure PlayerStoreState where
  playlist : List MediaFile
  currentIndex : ℤ
  currentFile : Option MediaFile
  hasDirHandle : Bool
  isPlaying : Bool
  position : ℚ
  duration : ℚ
  settings : Settings
deriving DecidableEq, Repr

/-- Initial store state, `initialState` in playerStore.ts. -/
def initialState : PlayerStoreState :=
  { playlist := []
    currentIndex := -1
    currentFile := none
    hasDirHandle := false
    isPlaying := false
    position := 0
    duration := 0
    settings := defaultSettings }

/-! ## Locale-aware string comparison

scanDirectory sorts the catalog with
`a.relativePath.localeCompare(b.relativePath)`.  ECMA-402 locale
comparison in the default locale is modelled here for ASCII strings: the
primary pass compares characters case-insensitively, and a primary tie is
broken by a per-position case pass in which lower case sorts first.  The
two passes are packed into a single collation key list separated by a
sentinel 0 (every primary weight is shifted by one so the sentinel is
strictly smallest), compared lexicographically.  The model captures the
behaviour that letter order dominates case, unlike raw byte order. -/

/-- Primary collation weight of an ASCII character: upper case letters
fold onto the corresponding lower case code. -/
def foldCase (c : Char) : ℕ :=
  if 65 ≤ c.toNat ∧ c.toNat ≤ 90 then c.toNat + 32 else c.toNat

/-- Case weight of a character: upper case sorts after lower case when
the primary weights tie. -/
def caseKey (c : Char) : ℕ :=
  if 65 ≤ c.toNat ∧ c.toNat ≤ 90 then 1 else 0

/-- Collation key of a string: shifted primary weights, a sentinel 0,
then the case weights. -/
def collKey (s : String) : List ℕ :=
  s.data.map (fun c => foldCase c + 1) ++ 0 :: s.data.map caseKey

/-- Lexicographic comparison of weight lists. -/
def lexCmp : List ℕ → List ℕ → Ordering
  | [], [] => .eq
  | [], _ :: _ => .lt
  | _ :: _, [] => .gt
  | a :: as, b :: bs =>
      if a < b then .lt else if b < a then .gt else lexCmp as bs

/-- Model of `String.prototype.localeCompare` in the default locale,
restricted to ASCII, as an `Ordering` (the sign of the JS number). -/
def localeCompare (s t : String) : Ordering :=
  lexCmp (collKey s) (collKey t)

/-- Boolean form of "localeCompare is not positive", the condition under
which a stable sort keeps `s` before `t`. -/
def localeLe (s t : String) : Bool :=
  match localeCompare s t with
  | .gt => false
  | _ => true

/-! ## Directory scanning (src/services/fileSystem.ts) -/

/-- File type preferences, `FileTypePreferences` in src/types. -/
structure FileTypePreferences where
  video : List String
  audio : List String
  subtitles : List String
deriving DecidableEq, Repr

/-- Default recognized extensions, `DEFAULT_FILE_TYPES` in src/types. -/
def DEFAULT_FILE_TYPES : FileTypePreferences :=
  { video := [".mp4", ".mkv", ".webm", ".avi", ".mov", ".m4v"]
    audio := [".mp3", ".flac", ".ogg", ".wav", ".aac", ".m4a"]
    subtitles := [".srt", ".vtt", ".sub"] }

/-- Lower-case an ASCII character, model of `toLowerCase` on the ASCII
range. -/
def lowerChar (c : Char) : Char :=
  if 65 ≤ c.toNat ∧ c.toNat ≤ 90 then Char.ofNat (c.toNat + 32) else c

/-- Lower-case an ASCII string. -/
def lowerString (s : String) : String :=
  ⟨s.data.map lowerChar⟩

/-- Split a character list at the last occurrence of `sep`: the parts
strictly before and strictly after it, or `none` when `sep` is absent.
This models `lastIndexOf` followed by `slice`. -/
def breakAtLast (sep : Char) : List Char → Option (List Char × List Char)
  | [] => none
  | c :: cs =>
      match breakAtLast sep cs with
      | some (pre, post) => some (c :: pre, post)
      | none => if c = sep then some ([], cs) else none

/-- Model of `getExtension`: the suffix from the last dot (inclusive),
lower-cased; `none` when the name has no dot. -/
def getExtension (filename : String) : Option String :=
  match breakAtLast '.' filename.data with
  | none => none
  | some (_, post) => some (lowerString ⟨'.' :: post⟩)

/-- Model of `getBaseName`: the name up to the last dot. -/
def getBaseName (filename : String) : String :=
  match breakAtLast '.' filename.data with
  | none => filename
  | some (pre, _) => ⟨pre⟩

/-- Model of `getDirectory`: the path up to the last slash. -/
def getDirectory (path : String) : String :=
  match breakAtLast '/' path.data with
  | none => ""
  | some (pre, _) => ⟨pre⟩

/-- Model of the `entryPath` computation: an empty base path is falsy in
JS, so the root level uses the bare entry name. -/
def joinPath (path name : String) : String :=
  if path = "" then name else path ++ "/" ++ name

/-- Classification of a raw scanned file inside `scanDir`. -/
inductive RawKind where
  | video
  | audio
  | subtitle
deriving DecidableEq, Repr

/-- One entry of the `allFiles` accumulator inside `scanDirectory`. -/
structure RawFile where
  name : String
  path : String
  handle : ℕ
  kind : RawKind
  baseName : String
  directory : String
deriving DecidableEq, Repr

/-- The body of the file branch of `scanDir`: push a classified record
when the extension is recognized, skip the file otherwise. -/
def classify (prefs : FileTypePreferences) (name entryPath : String)
    (handle : ℕ) : List RawFile :=
  match getExtension name with
  | none => []
  | some ext =>
      let baseName := getBaseName name
      let directory := getDirectory entryPath
      if (prefs.video.map lowerString).contains ext then
        [⟨name, entryPath, handle, RawKind.video, baseName, directory⟩]
      else if (prefs.audio.map lowerString).contains ext then
        [⟨name, entryPath, handle, RawKind.audio, baseName, directory⟩]
      else if (prefs.subtitles.map lowerString).contains ext then
        [⟨name, entryPath, handle, RawKind.subtitle, baseName, directory⟩]
      else []

/-- A file tree handed to the scanner.  A directory whose `readable`
flag is false models a directory whose handle iteration throws
(permission or I/O error). -/
inductive FsEntry where
  | file (name : String) (handle : ℕ)
  | dir (name : String) (readable : Bool) (entries : List FsEntry)

mutual

/-- The directory loop of `scanDir` over the entries of one directory.
There is no try/catch in `scanDir`, so an error anywhere aborts the
whole traversal. -/
def scanEntries (prefs : FileTypePreferences) :
    List FsEntry → String → Except Unit (List RawFile)
  | [], _ => .ok []
  | e :: es, path => do
      let r₁ ← scanEntry prefs e path
      let r₂ ← scanEntries prefs es path
      .ok (r₁ ++ r₂)

/-- One iteration of the `scanDir` loop: recurse into a directory or
classify a file. -/
def scanEntry (prefs : FileTypePreferences) :
    FsEntry → String → Except Unit (List RawFile)
  | .file name handle, path =>
      .ok (classify prefs name (joinPath path name) handle)
  | .dir name readable entries, path =>
      if readable then scanEntries prefs entries (joinPath path name)
      else .error ()

end

mutual

/-- Whether some directory in a list of entries (at any depth) is
unreadable. -/
def anyBadList : List FsEntry → Bool
  | [] => false
  | e :: es => anyBadEntry e || anyBadList es

/-- Whether the entry contains an unreadable directory (at any depth). -/
def anyBadEntry : FsEntry → Bool
  | .file _ _ => false
  | .dir _ readable entries => !readable || anyBadList entries

end

/-- The subtitle grouping of `scanDirectory`: `subtitlesByMedia` keyed by
directory and base name; record insertion preserves traversal order, so
the group for a key is the traversal-ordered list of subtitle handles
with that key. -/
def subtitlesFor (all : List RawFile) (key : String) : List ℕ :=
  (all.filter fun f =>
      f.kind == RawKind.subtitle && f.directory ++ "/" ++ f.baseName == key).map
    RawFile.handle

/-- The media-building loop of `scanDirectory`: every non-subtitle raw
file becomes a `MediaFile` carrying its associated subtitle handles. -/
def buildMedia (all : List RawFile) : List MediaFile :=
  (all.filter fun f => f.kind != RawKind.subtitle).map fun f =>
    { name := f.name
      relativePath := f.path
      handle := f.handle
      kind := if f.kind == RawKind.video then MediaKind.video else MediaKind.audio
      subtitleHandles := subtitlesFor all (f.directory ++ "/" ++ f.baseName) }

/-- The comparator passed to `files.sort`: keep `a` before `b` when
`a.relativePath.localeCompare(b.relativePath)` is not positive. -/
def catalogLE (a b : MediaFile) : Prop :=
  localeCompare a.relativePath b.relativePath ≠ .gt

instance : DecidableRel catalogLE := fun a b =>
  inferInstanceAs (Decidable (localeCompare a.relativePath b.relativePath ≠ .gt))

/-- The final sort of `scanDirectory`.  `Array.prototype.sort` is a
stable sort, and the output of a stable sort is uniquely determined by
the comparator and the input order, so it is modelled by stable
insertion sort. -/
def sortCatalog (files : List MediaFile) : List MediaFile :=
  List.insertionSort catalogLE files

/-- Model of `scanDirectory`: traverse the tree (the root handle has its
own readable flag), group subtitles, build the media list and sort it. -/
def scanDirectory (prefs : FileTypePreferences) (rootReadable : Bool)
    (root : List FsEntry) : Except Unit (List MediaFile) := do
  let allFiles ← if rootReadable then scanEntries prefs root "" else .error ()
  .ok (sortCatalog (buildMedia allFiles))

/-! ## Progress persistence (fileSystem.ts: readState / writeState)

The persisted file holds one JSON document.  `writeState` serializes the
`PlayerState` object with `JSON.stringify` and replaces the file;
`readState` parses the file text.  Serialization to text and parsing
back is the identity on the document structure, so the file content is
modelled as the JSON document itself. -/

/-- The JSON fragment produced by serializing a `PlayerState`. -/
inductive Json where
  | bool (b : Bool)
  | num (q : ℚ)
  | str (s : String)
  | obj (fields : List (String × Json))

/-- Model of `JSON.stringify` on a `PlayerState` object: the document
with the fields of the object, in declaration order. -/
def serializeState (st : PlayerState) : Json :=
  .obj
    [("lastFile", .str st.lastFile),
     ("lastPosition", .num st.lastPosition),
     ("settings", .obj
        [("volume", .num st.settings.volume),
         ("playbackRate", .num st.settings.playbackRate),
         ("shuffle", .bool st.settings.shuffle),
         ("loop", .bool st.settings.loop),
         ("subtitles", .obj
            [("enabled", .bool st.settings.subtitles.enabled),
             ("fontSize", .num st.settings.subtitles.fontSize)])])]

/-- Field access on a parsed document. -/
def Json.getField (j : Json) (k : String) : Option Json :=
  match j with
  | .obj fields => fields.lookup k
  | _ => none

/-- Numeric value of a parsed document node. -/
def Json.asNum : Json → Option ℚ
  | .num q => some q
  | _ => none

/-- Boolean value of a parsed document node. -/
def Json.asBool : Json → Option Bool
  | .bool b => some b
  | _ => none

/-- String value of a parsed document node. -/
def Json.asStr : Json → Option String
  | .str s => some s
  | _ => none

/-- The TS reader casts the parsed document without validation and the
app then reads its fields; this decoder captures those field reads on a
document of the persisted shape. -/
def decodeState (j : Json) : Option PlayerState := do
  let lastFile ← (j.getField "lastFile").bind Json.asStr
  let lastPosition ← (j.getField "lastPosition").bind Json.asNum
  let s ← j.getField "settings"
  let volume ← (s.getField "volume").bind Json.asNum
  let playbackRate ← (s.getField "playbackRate").bind Json.asNum
  let shuffle ← (s.getField "shuffle").bind Json.asBool
  let loop ← (s.getField "loop").bind Json.asBool
  let subs ← s.getField "subtitles"
  let enabled ← (subs.getField "enabled").bind Json.asBool
  let fontSize ← (subs.getField "fontSize").bind Json.asNum
  some
    { lastFile := lastFile
      lastPosition := lastPosition
      settings :=
        { volume := volume
          playbackRate := playbackRate
          shuffle := shuffle
          loop := loop
          subtitles := { enabled := enabled, fontSize := fontSize } } }

/-- The session root folder as the persistence layer sees it: the
content of .player-state.json, if the file exists. -/
structure FolderFS where
  stateFile : Option Json

/-- Model of `writeState`: serialize and fully replace the prior file. -/
def writeState (st : PlayerState) (_fs : FolderFS) : FolderFS :=
  { stateFile := some (serializeState st) }

/-- Model of `readState` on the success path: parse the file content if
the file exists. -/
def readState (fs : FolderFS) : Option PlayerState :=
  fs.stateFile.bind decodeState

/-! ## Playback session and auto-save (src/App.tsx)

The store state lives in React state.  Inside an event handler,
`setState` only schedules an update: the new value is committed after
the handler returns, and `stateRef.current` (synchronized by an effect
after each commit) still holds the previous committed state while the
handler runs.  Plain refs such as `lastSaveTimeRef` mutate immediately.
Each handler is therefore modelled as one transition of an `AppModel`
in which `saveCurrentState` reads the committed, pre-handler store
state, and the scheduled update is applied at the end of the
transition. -/

/-- JS array indexing: `playlist[i]` is undefined outside the bounds. -/
def jsGet (l : List MediaFile) (i : ℤ) : Option MediaFile :=
  if i < 0 then none else l.get? i.toNat

/-- JS `findIndex`: index of the first match, -1 when absent. -/
def jsFindIndex (p : MediaFile → Bool) (l : List MediaFile) : ℤ :=
  match l.findIdx? p with
  | some n => (n : ℤ)
  | none => -1

/-- The common return of the `next` and `prev` updaters: select
`playlist[idx]` and restart playback from position 0. -/
def selectAt (s : PlayerStoreState) (idx : ℤ) : PlayerStoreState :=
  { s with currentIndex := idx
           currentFile := jsGet s.playlist idx
           isPlaying := true
           position := 0
           duration := 0 }

/-- The state updater of `next()`.  The shuffle draw
`Math.floor(Math.random() * n)` ranges over [0, n); it is modelled by
the parameter `r` reduced modulo the playlist length. -/
def next (r : ℕ) (s : PlayerStoreState) : PlayerStoreState :=
  if s.playlist.length = 0 then s
  else if s.settings.shuffle then
    selectAt s ((r % s.playlist.length : ℕ) : ℤ)
  else if (s.playlist.length : ℤ) ≤ s.currentIndex + 1 then
    if s.settings.loop then selectAt s 0
    else { s with isPlaying := false }
  else selectAt s (s.currentIndex + 1)

/-- The state updater of `prev()`. -/
def prev (s : PlayerStoreState) : PlayerStoreState :=
  if s.playlist.length = 0 then s
  else if 3 < s.position then { s with position := 0 }
  else if s.currentIndex - 1 < 0 then selectAt s ((s.playlist.length : ℤ) - 1)
  else selectAt s (s.currentIndex - 1)

/-- The state updater of `play(file)`. -/
def play (file : MediaFile) (s : PlayerStoreState) : PlayerStoreState :=
  { s with currentFile := some file
           currentIndex := jsFindIndex (fun f => f.relativePath == file.relativePath) s.playlist
           isPlaying := true
           position := 0
           duration := 0 }

/-- The state updater of `playAtPosition(file, position)`. -/
def playAtPosition (file : MediaFile) (position : ℚ)
    (s : PlayerStoreState) : PlayerStoreState :=
  { s with currentFile := some file
           currentIndex := jsFindIndex (fun f => f.relativePath == file.relativePath) s.playlist
           isPlaying := true
           position := position
           duration := 0 }

/-- The App component state relevant to persistence: the committed store
state, the `lastSaveTimeRef` throttle ref, the persisted file content,
and the resume dialog state. -/
structure AppModel where
  st : PlayerStoreState
  lastSaveTime : ℤ
  persisted : Option PlayerState
  savedState : Option PlayerState
  showResumeDialog : Bool
deriving DecidableEq, Repr

/-- Model of `saveCurrentState`: read the committed state through
`stateRef`; return without a folder handle or current file; otherwise
replace the persisted record.  A write failure is caught and only
logged, so the success path is modelled. -/
def saveCurrentState (m : AppModel) : AppModel :=
  match m.st.currentFile with
  | none => m
  | some f =>
      if m.st.hasDirHandle then
        let record : PlayerState :=
          { lastFile := f.relativePath
            lastPosition := m.st.position
            settings := m.st.settings }
        { m with persisted := some record }
      else m

/-- The `setVolume` handler: schedule the clamped volume update and call
`saveCurrentState`, which still sees the pre-handler state; the update
commits when the handler finishes. -/
def setVolume (vol : ℚ) (m : AppModel) : AppModel :=
  let saved := saveCurrentState m
  { saved with st := { m.st with settings :=
      { m.st.settings with volume := max 0 (min 1 vol) } } }

/-- The `setSpeed` handler (same save-then-commit shape as `setVolume`). -/
def setSpeed (rate : ℚ) (m : AppModel) : AppModel :=
  let saved := saveCurrentState m
  { saved with st := { m.st with settings :=
      { m.st.settings with playbackRate := rate } } }

/-- The `toggleShuffle` handler. -/
def toggleShuffle (m : AppModel) : AppModel :=
  let saved := saveCurrentState m
  { saved with st := { m.st with settings :=
      { m.st.settings with shuffle := !m.st.settings.shuffle } } }

/-- The `toggleLoop` handler. -/
def toggleLoop (m : AppModel) : AppModel :=
  let saved := saveCurrentState m
  { saved with st := { m.st with settings :=
      { m.st.settings with loop := !m.st.settings.loop } } }

/-- The `toggleSubtitles` handler. -/
def toggleSubtitles (m : AppModel) : AppModel :=
  let saved := saveCurrentState m
  { saved with st := { m.st with settings :=
      { m.st.settings with subtitles :=
          { m.st.settings.subtitles with
              enabled := !m.st.settings.subtitles.enabled } } } }

/-- The `setSubtitleFontSize` handler. -/
def setSubtitleFontSize (size : ℚ) (m : AppModel) : AppModel :=
  let saved := saveCurrentState m
  { saved with st := { m.st with settings :=
      { m.st.settings with subtitles :=
          { m.st.settings.subtitles with fontSize := size } } } }

/-- The `setPosition` handler: position updates are throttled to one
write per 5000 ms through `lastSaveTimeRef`. -/
def setPosition (pos : ℚ) (now : ℤ) (m : AppModel) : AppModel :=
  if 5000 ≤ now - m.lastSaveTime then
    let saved := saveCurrentState { m with lastSaveTime := now }
    { saved with st := { m.st with position := pos } }
  else
    { m with st := { m.st with position := pos } }

/-- Model of `handleFolderReady`: install the new folder and playlist,
and when the persisted record read from the folder has a truthy
`lastFile` naming an item of the fresh playlist, offer the resume
dialog.  The handler does not copy `saved.settings` into the session. -/
def handleFolderReady (files : List MediaFile) (saved : Option PlayerState)
    (m : AppModel) : AppModel :=
  let m₁ := { m with st :=
    { m.st with hasDirHandle := true
                playlist := files
                currentFile := none
                currentIndex := -1 } }
  match saved with
  | some sv =>
      if sv.lastFile != "" && files.any (fun f => f.relativePath == sv.lastFile) then
        { m₁ with savedState := some sv, showResumeDialog := true }
      else m₁
  | none => m₁

/-- Model of `handleResume`: select the saved item at the saved position
when it is still present, then close the dialog. -/
def handleResume (m : AppModel) : AppModel :=
  match m.savedState with
  | none => m
  | some sv =>
      let m₁ :=
        match m.st.playlist.find? (fun f => f.relativePath == sv.lastFile) with
        | some file => { m with st := playAtPosition file sv.lastPosition m.st }
        | none => m
      { m₁ with showResumeDialog := false, savedState := none }

/-- Model of `handleDismissResume`. -/
def handleDismissResume (m : AppModel) : AppModel :=
  { m with showResumeDialog := false, savedState := none }

/-! ## Codec compatibility pipeline (src/services/codecService.ts) -/

/-- Extensions that may carry HEVC video or AC3/DTS audio,
`SCAN_EXTS`. -/
def SCAN_EXTS : List String := ["mkv", "mp4", "m4v", "avi", "mov"]

/-- Model of `name.toLowerCase().split(dot).pop()`: the part after the
last dot of the lower-cased name, or the whole lower-cased name when it
has no dot. -/
def lastExtComponent (filename : String) : String :=
  let lowered := lowerString filename
  match breakAtLast '.' lowered.data with
  | none => lowered
  | some (_, post) => ⟨post⟩

/-- Model of `mightNeedTranscoding`. -/
def mightNeedTranscoding (filename : String) : Bool :=
  SCAN_EXTS.contains (lastExtComponent filename)

/-- A `File` value: its name and an identifier standing for its bytes. -/
structure FileData where
  name : String
  id : ℕ
deriving DecidableEq, Repr

/-- A URL handed to the render layer: a blob URL for the original file
bytes, or a blob URL for the transcoded output. -/
inductive MediaUrl where
  | original (id : ℕ)
  | transcoded
deriving DecidableEq, Repr

/-- The regex verdict of `probeFile` over the collected log. -/
structure ProbeResult where
  hasHevc : Bool
  hasAc3OrDts : Bool
deriving DecidableEq, Repr

/-- The value `ensurePlayable` resolves with. -/
structure EnsureResult where
  url : MediaUrl
  transcoded : Bool
deriving DecidableEq, Repr

/-- Outcomes of the awaited effects during one `ensurePlayable` call.
The probe exec rejection is caught inside `probeFile` (it is the
expected way ffmpeg reports metadata without an output file), so the
probe contributes only its regex verdict over whatever log was
collected. -/
structure CodecEnv where
  isHttpContext : Bool
  engineLoad : Except Unit Unit
  fetchFile : Except Unit Unit
  writeFile : Except Unit Unit
  probe : ProbeResult
  transcodeExec : Except Unit Unit
  readOutput : Except Unit Unit
  deleteInput : Except Unit Unit
  deleteOutput : Except Unit Unit
deriving Repr

/-- Model of `ensurePlayable`.  The second component threads the set of
temporary files in the engine working area (file names); the try/catch
of the source is the explicit fallback on every error outcome, which
returns the original blob URL with `transcoded = false` and leaves the
working area as it stood at the point of failure.  The TS fallback
`?? mkv` after `pop()` is dead code (`split` never yields an empty
array) and is not modelled. -/
def ensurePlayable (env : CodecEnv) (file : FileData)
    (work : List String) : EnsureResult × List String :=
  if !env.isHttpContext then (⟨.original file.id, false⟩, work)
  else if !mightNeedTranscoding file.name then (⟨.original file.id, false⟩, work)
  else
    let fallback := EnsureResult.mk (.original file.id) false
    match env.engineLoad with
    | .error _ => (fallback, work)
    | .ok _ =>
    match env.fetchFile with
    | .error _ => (fallback, work)
    | .ok _ =>
    match env.writeFile with
    | .error _ => (fallback, work)
    | .ok _ =>
    let inputName := "input." ++ lastExtComponent file.name
    let work₁ := inputName :: work
    if !env.probe.hasHevc && !env.probe.hasAc3OrDts then
      match env.deleteInput with
      | .error _ => (fallback, work₁)
      | .ok _ => (⟨.original file.id, false⟩, work₁.filter (fun n => n != inputName))
    else
      match env.transcodeExec with
      | .error _ => (fallback, work₁)
      | .ok _ =>
      let work₂ := "output.mp4" :: work₁
      match env.readOutput with
      | .error _ => (fallback, work₂)
      | .ok _ =>
      match env.deleteInput with
      | .error _ => (fallback, work₂)
      | .ok _ =>
      let work₃ := work₂.filter (fun n => n != inputName)
      match env.deleteOutput with
      | .error _ => (fallback, work₃)
      | .ok _ => (⟨.transcoded, true⟩, work₃.filter (fun n => n != "output.mp4"))

instance {ε α : Type} [DecidableEq ε] [DecidableEq α] :
    DecidableEq (Except ε α) := fun a b =>
  match a, b with
  | .ok x, .ok y => if h : x = y then isTrue (by simp [h]) else isFalse (by simp [h])
  | .error x, .error y => if h : x = y then isTrue (by simp [h]) else isFalse (by simp [h])
  | .ok _, .error _ => isFalse (by simp)
  | .error _, .ok _ => isFalse (by simp)

/-- A catalog item without its subtitle association: the part of a
`MediaFile` that does not depend on the traversal order of the scan. -/
def MediaFile.core (f : MediaFile) : String × String × ℕ × MediaKind :=
  (f.relativePath, f.name, f.handle, f.kind)

/-- The core a raw media file contributes to the catalog. -/
def RawFile.core (f : RawFile) : String × String × ℕ × MediaKind :=
  (f.path, f.name, f.handle,
   if f.kind == RawKind.video then MediaKind.video else MediaKind.audio)

/-! ## Concrete inputs for the example theorems -/

/-- Byte-order comparison of path strings following the spec words
(path string compared lexicographically, case-sensitive byte order,
ascending); UTF-8 byte order coincides with code point order. -/
def byteOrderLe (s t : String) : Prop :=
  lexCmp (s.data.map Char.toNat) (t.data.map Char.toNat) ≠ .gt

instance : DecidableRel byteOrderLe := fun s t =>
  inferInstanceAs
    (Decidable (lexCmp (s.data.map Char.toNat) (t.data.map Char.toNat) ≠ .gt))

def exFileA : MediaFile :=
  { name := "a.mp4", relativePath := "a.mp4", handle := 0,
    kind := .video, subtitleHandles := [] }

def exFileB : MediaFile :=
  { name := "b.mp4", relativePath := "b.mp4", handle := 1,
    kind := .video, subtitleHandles := [] }

def exFileC : MediaFile :=
  { name := "c.mp4", relativePath := "c.mp4", handle := 2,
    kind := .video, subtitleHandles := [] }

def exFileBUpper : MediaFile :=
  { name := "B.mp4", relativePath := "B.mp4", handle := 0,
    kind := .video, subtitleHandles := [] }

/-- A folder with a file whose name starts with an upper case letter and
one with a lower case letter: locale order and byte order disagree. -/
def exMixedCaseTree : List FsEntry := [.file "B.mp4" 0, .file "a.mp4" 1]

/-- A folder with one readable media file and one unreadable
subdirectory. -/
def exDegradedTree : List FsEntry :=
  [.file "a.mp4" 0, .dir "locked" false [.file "b.mp4" 1]]

def exTreeAB : List FsEntry := [.file "a.mp4" 0, .file "b.mp4" 1]

def exTreeBA : List FsEntry := [.file "b.mp4" 1, .file "a.mp4" 0]

def exRawA : RawFile :=
  { name := "a.mp4", path := "a.mp4", handle := 0, kind := .video,
    baseName := "a", directory := "" }

def exRawB : RawFile :=
  { name := "b.mp4", path := "b.mp4", handle := 1, kind := .video,
    baseName := "b", directory := "" }

/-- A session positioned on the last playlist entry with shuffle and
loop both off. -/
def exLastState : PlayerStoreState :=
  { playlist := [exFileA, exFileB], currentIndex := 1,
    currentFile := some exFileB, hasDirHandle := true, isPlaying := true,
    position := 10, duration := 60, settings := defaultSettings }

/-- A three-item session at index 2 with position 5 seconds. -/
def exPrev5 : PlayerStoreState :=
  { playlist := [exFileA, exFileB, exFileC], currentIndex := 2,
    currentFile := some exFileC, hasDirHandle := true, isPlaying := true,
    position := 5, duration := 60, settings := defaultSettings }

/-- The same session at position 1 second. -/
def exPrev1 : PlayerStoreState := { exPrev5 with position := 1 }

/-- A persisted record whose settings differ from the defaults in every
field. -/
def exSavedState : PlayerState :=
  { lastFile := "a.mp4", lastPosition := 42,
    settings := { volume := 0, playbackRate := 2, shuffle := true,
                  loop := true, subtitles := { enabled := false, fontSize := 22 } } }

/-- The App before any folder is open. -/
def exAppStart : AppModel :=
  { st := initialState, lastSaveTime := 0, persisted := none,
    savedState := none, showResumeDialog := false }

/-- An App playing a.mp4 at 7 seconds with default settings and no
persisted record yet. -/
def exPlayingApp : AppModel :=
  { st := { playlist := [exFileA], currentIndex := 0,
            currentFile := some exFileA, hasDirHandle := true,
            isPlaying := true, position := 7, duration := 100,
            settings := defaultSettings }
    lastSaveTime := 0, persisted := none, savedState := none,
    showResumeDialog := false }

def exMkvFile : FileData := { name := "movie.mkv", id := 5 }

/-- An environment in which loading the transcoding engine fails. -/
def exEnvLoadFail : CodecEnv :=
  { isHttpContext := true, engineLoad := .error (), fetchFile := .ok ()
    writeFile := .ok (), probe := { hasHevc := false, hasAc3OrDts := false }
    transcodeExec := .ok (), readOutput := .ok (), deleteInput := .ok ()
    deleteOutput := .ok () }

/-- An environment in which the probe reports HEVC and the transcode
exec then fails. -/
def exEnvTranscodeFail : CodecEnv :=
  { isHttpContext := true, engineLoad := .ok (), fetchFile := .ok ()
    writeFile := .ok (), probe := { hasHevc := true, hasAc3OrDts := false }
    transcodeExec := .error (), readOutput := .ok (), deleteInput := .ok ()
    deleteOutput := .ok () }

/-- An environment in which every engine step succeeds and the probe
reports HEVC. -/
def exEnvOk : CodecEnv :=
  { isHttpContext := true, engineLoad := .ok (), fetchFile := .ok ()
    writeFile := .ok (), probe := { hasHevc := true, hasAc3OrDts := false }
    transcodeExec := .ok (), readOutput := .ok (), deleteInput := .ok ()
    deleteOutput := .ok () }

def exStateVol0 : PlayerState :=
  { lastFile := "a.mp4", lastPosition := 9,
    settings := { defaultSettings with volume := 0 } }

def exStateVol1 : PlayerState :=
  { lastFile := "b.mp4", lastPosition := 3, settings := defaultSettings }

def emptyFolder : FolderFS := { stateFile := none }

/-! ## Helper lemmas -/

theorem lexCmp_swap : ∀ as bs : List ℕ, lexCmp bs as = (lexCmp as bs).swap
  | [], [] => rfl
  | [], _ :: _ => rfl
  | _ :: _, [] => rfl
  | a :: as, b :: bs => by
      simp only [lexCmp]
      rcases Nat.lt_trichotomy a b with h | h | h
      · simp [h, Nat.lt_asymm h, Ordering.swap]
      · subst h
        simp [lt_irrefl, lexCmp_swap as bs]
      · simp [h, Nat.lt_asymm h, Ordering.swap]

theorem lexCmp_eq_iff : ∀ as bs : List ℕ, lexCmp as bs = .eq ↔ as = bs
  | [], [] => by simp [lexCmp]
  | [], _ :: _ => by simp [lexCmp]
  | _ :: _, [] => by simp [lexCmp]
  | a :: as, b :: bs => by
      simp only [lexCmp]
      rcases Nat.lt_trichotomy a b with h | h | h
      · rw [if_pos h]
        simp [Nat.ne_of_lt h]
      · subst h
        rw [if_neg (lt_irrefl a), if_neg (lt_irrefl a)]
        simp [lexCmp_eq_iff as bs]
      · rw [if_neg (Nat.lt_asymm h), if_pos h]
        simp [(Nat.ne_of_lt h).symm]

theorem lexCmp_le_trans : ∀ as bs cs : List ℕ,
    lexCmp as bs ≠ .gt → lexCmp bs cs ≠ .gt → lexCmp as cs ≠ .gt
  | [], bs, cs, _, _ => by cases cs <;> simp [lexCmp]
  | _ :: _, [], _, h₁, _ => by simp [lexCmp] at h₁
  | _ :: _, _ :: _, [], _, h₂ => by simp [lexCmp] at h₂
  | a :: as, b :: bs, c :: cs, h₁, h₂ => by
      have hab : ¬ b < a := by
        intro h
        apply h₁
        simp [lexCmp, h, Nat.lt_asymm h]
      have hbc : ¬ c < b := by
        intro h
        apply h₂
        simp [lexCmp, h, Nat.lt_asymm h]
      by_cases hac : a < c
      · simp [lexCmp, hac]
      · have hca : a = c := le_antisymm
          (le_trans (Nat.le_of_not_lt hab) (Nat.le_of_not_lt hbc))
          (Nat.le_of_not_lt hac)
        subst hca
        have hb : a = b := le_antisymm (Nat.le_of_not_lt hab)
          (le_trans (Nat.le_of_not_lt hbc) (Nat.le_of_not_lt hac))
        subst hb
        simp only [lexCmp, lt_irrefl, if_false] at h₁ h₂ ⊢
        exact lexCmp_le_trans as bs cs h₁ h₂


theorem append_sentinel_inj : ∀ (a c : List ℕ) (b d : List ℕ),
    (∀ x ∈ a, x ≠ 0) → (∀ x ∈ c, x ≠ 0) →
    a ++ 0 :: b = c ++ 0 :: d → a = c ∧ b = d
  | [], [], b, d, _, _, h => by simpa using h
  | [], c₀ :: c, b, d, _, hc, h => by
      simp only [List.nil_append, List.cons_append, List.cons.injEq] at h
      exact absurd h.1.symm (hc c₀ (by simp))
  | a₀ :: a, [], b, d, ha, _, h => by
      simp only [List.nil_append, List.cons_append, List.cons.injEq] at h
      exact absurd h.1 (ha a₀ (by simp))
  | a₀ :: a, c₀ :: c, b, d, ha, hc, h => by
      simp only [List.cons_append, List.cons.injEq] at h
      obtain ⟨h₁, h₂⟩ := append_sentinel_inj a c b d
        (fun x hx => ha x (by simp [hx])) (fun x hx => hc x (by simp [hx])) h.2
      exact ⟨by simp [h.1, h₁], h₂⟩

theorem char_eq_of_weights {c₁ c₂ : Char}
    (h₁ : foldCase c₁ = foldCase c₂) (h₂ : caseKey c₁ = caseKey c₂) : c₁ = c₂ := by
  have hval : c₁.toNat = c₂.toNat := by
    simp only [foldCase, caseKey] at h₁ h₂
    split_ifs at h₁ h₂ <;> omega
  exact Char.ext (UInt32.toNat.inj hval)

theorem chars_eq_of_weight_maps : ∀ xs ys : List Char,
    xs.map (fun c => foldCase c + 1) = ys.map (fun c => foldCase c + 1) →
    xs.map caseKey = ys.map caseKey → xs = ys
  | [], [], _, _ => rfl
  | [], _ :: _, h, _ => by simp at h
  | _ :: _, [], h, _ => by simp at h
  | x :: xs, y :: ys, h₁, h₂ => by
      simp only [List.map_cons, List.cons.injEq] at h₁ h₂
      have hx : x = y := char_eq_of_weights (by omega) h₂.1
      rw [hx, chars_eq_of_weight_maps xs ys h₁.2 h₂.2]

theorem collKey_inj {s t : String} (h : collKey s = collKey t) : s = t := by
  unfold collKey at h
  obtain ⟨h₁, h₂⟩ := append_sentinel_inj _ _ _ _
    (by intro x hx; simp only [List.mem_map] at hx; omega)
    (by intro x hx; simp only [List.mem_map] at hx; omega) h
  have hdata := chars_eq_of_weight_maps s.data t.data h₁ h₂
  cases s; cases t; exact congrArg String.mk hdata

/-- Two sorted lists that are permutations of each other and whose keys
have no duplicates are equal.  The comparator is the collation-key
order, which is antisymmetric only up to keys, so key uniqueness stands
in for antisymmetry. -/
theorem eq_of_perm_of_sorted_keys {α : Type} (key : α → List ℕ) :
    ∀ l₁ l₂ : List α, l₁.Perm l₂ →
      List.Pairwise (fun a b => lexCmp (key a) (key b) ≠ .gt) l₁ →
      List.Pairwise (fun a b => lexCmp (key a) (key b) ≠ .gt) l₂ →
      (l₁.map key).Nodup → l₁ = l₂
  | [], l₂, hp, _, _, _ => (hp.symm.eq_nil).symm
  | a :: t₁, l₂, hp, hs₁, hs₂, hnd => by
      cases l₂ with
      | nil => exact absurd hp.eq_nil (by simp)
      | cons b t₂ =>
        by_cases hab : a = b
        · subst hab
          have ht : t₁.Perm t₂ := hp.cons_inv
          have hnd₂ : (List.map key t₁).Nodup := by
            rw [List.map_cons] at hnd
            exact (List.nodup_cons.mp hnd).2
          have := eq_of_perm_of_sorted_keys key t₁ t₂ ht
            (List.pairwise_cons.mp hs₁).2 (List.pairwise_cons.mp hs₂).2 hnd₂
          rw [this]
        · exfalso
          have hmem₁ : a ∈ b :: t₂ := hp.subset (List.mem_cons_self a t₁)
          have hmem₂ : b ∈ a :: t₁ := hp.symm.subset (List.mem_cons_self b t₂)
          have ha₂ : a ∈ t₂ := by
            rcases List.mem_cons.mp hmem₁ with h | h
            · exact absurd h hab
            · exact h
          have hb₁ : b ∈ t₁ := by
            rcases List.mem_cons.mp hmem₂ with h | h
            · exact absurd h.symm hab
            · exact h
          have h₁ : lexCmp (key a) (key b) ≠ .gt :=
            (List.pairwise_cons.mp hs₁).1 b hb₁
          have h₂ : lexCmp (key b) (key a) ≠ .gt :=
            (List.pairwise_cons.mp hs₂).1 a ha₂
          have hk : key a = key b := by
            have hswap := lexCmp_swap (key a) (key b)
            cases hcc : lexCmp (key a) (key b) with
            | lt => rw [hcc] at hswap; exact absurd hswap h₂
            | eq => exact (lexCmp_eq_iff _ _).mp hcc
            | gt => exact absurd hcc h₁
          rw [List.map_cons] at hnd
          exact (List.nodup_cons.mp hnd).1 (hk ▸ List.mem_map_of_mem key hb₁)

mutual

theorem scanEntries_error (prefs : FileTypePreferences) :
    ∀ (es : List FsEntry) (path : String), anyBadList es = true →
      scanEntries prefs es path = .error ()
  | [], _, h => by simp [anyBadList] at h
  | e :: es, path, h => by
      simp only [anyBadList, Bool.or_eq_true] at h
      rcases h with h | h
      · simp only [scanEntries]
        rw [scanEntry_error prefs e path h]
        rfl
      · cases hse : scanEntry prefs e path with
        | error u =>
            simp only [scanEntries]
            rw [hse]
            rfl
        | ok r =>
            simp only [scanEntries]
            rw [hse, scanEntries_error prefs es path h]
            rfl

theorem scanEntry_error (prefs : FileTypePreferences) :
    ∀ (e : FsEntry) (path : String), anyBadEntry e = true →
      scanEntry prefs e path = .error ()
  | .file _ _, _, h => by simp [anyBadEntry] at h
  | .dir n readable entries, path, h => by
      simp only [anyBadEntry, Bool.or_eq_true] at h
      cases hr : readable with
      | false => simp [scanEntry, hr]
      | true =>
          rcases h with h | h
          · rw [hr] at h; simp at h
          · simp [scanEntry, hr,
              scanEntries_error prefs entries (joinPath path n) h]

end

theorem catalogLE_total : ∀ a b : MediaFile, catalogLE a b ∨ catalogLE b a := by
  intro a b
  unfold catalogLE localeCompare
  cases h : lexCmp (collKey a.relativePath) (collKey b.relativePath) with
  | lt => exact Or.inl (by simp [h])
  | eq => exact Or.inl (by simp [h])
  | gt =>
      right
      rw [lexCmp_swap, h]
      simp [Ordering.swap]

theorem catalogLE_trans : ∀ a b c : MediaFile,
    catalogLE a b → catalogLE b c → catalogLE a c :=
  fun _ _ _ hab hbc => lexCmp_le_trans _ _ _ hab hbc

theorem buildMedia_core (all : List RawFile) :
    (buildMedia all).map MediaFile.core =
      (all.filter fun f => f.kind != RawKind.subtitle).map RawFile.core := by
  unfold buildMedia
  rw [List.map_map]
  rfl

/-- Sorting the media lists built from two permuted raw traversals gives
catalogs with identical cores, provided no two media items share a
relative path. -/
theorem sortCatalog_core_det (all₁ all₂ : List RawFile)
    (hp : all₁.Perm all₂)
    (hnd : ((all₁.filter fun f => f.kind != RawKind.subtitle).map RawFile.path).Nodup) :
    (sortCatalog (buildMedia all₁)).map MediaFile.core =
      (sortCatalog (buildMedia all₂)).map MediaFile.core := by
  haveI : IsTotal MediaFile catalogLE := ⟨catalogLE_total⟩
  haveI : IsTrans MediaFile catalogLE := ⟨catalogLE_trans⟩
  have pmain : ((sortCatalog (buildMedia all₁)).map MediaFile.core).Perm
      ((sortCatalog (buildMedia all₂)).map MediaFile.core) := by
    refine ((List.perm_insertionSort catalogLE (buildMedia all₁)).map MediaFile.core).trans ?_
    refine List.Perm.trans ?_
      ((List.perm_insertionSort catalogLE (buildMedia all₂)).map MediaFile.core).symm
    rw [buildMedia_core all₁, buildMedia_core all₂]
    exact (hp.filter _).map RawFile.core
  have hs₁ : List.Pairwise
      (fun a b => lexCmp (collKey a.1) (collKey b.1) ≠ Ordering.gt)
      ((sortCatalog (buildMedia all₁)).map MediaFile.core) :=
    (List.pairwise_map).mpr (List.sorted_insertionSort catalogLE (buildMedia all₁))
  have hs₂ : List.Pairwise
      (fun a b => lexCmp (collKey a.1) (collKey b.1) ≠ Ordering.gt)
      ((sortCatalog (buildMedia all₂)).map MediaFile.core) :=
    (List.pairwise_map).mpr (List.sorted_insertionSort catalogLE (buildMedia all₂))
  have hkeys : (((sortCatalog (buildMedia all₁)).map MediaFile.core).map
      (fun x => collKey x.1)).Nodup := by
    rw [List.map_map]
    have hperm : ((sortCatalog (buildMedia all₁)).map
        ((fun x => collKey x.1) ∘ MediaFile.core)).Perm
        ((all₁.filter fun f => f.kind != RawKind.subtitle).map
          (fun f => collKey f.path)) := by
      refine ((List.perm_insertionSort catalogLE (buildMedia all₁)).map _).trans ?_
      have : (buildMedia all₁).map ((fun x => collKey x.1) ∘ MediaFile.core) =
          (all₁.filter fun f => f.kind != RawKind.subtitle).map
            (fun f => collKey f.path) := by
        unfold buildMedia
        rw [List.map_map]
        rfl
      rw [this]
    rw [hperm.nodup_iff]
    have : ((all₁.filter fun f => f.kind != RawKind.subtitle).map
        (fun f => collKey f.path)) =
        (((all₁.filter fun f => f.kind != RawKind.subtitle).map RawFile.path).map
          collKey) := by rw [List.map_map]; rfl
    rw [this]
    exact hnd.map (fun a b h => collKey_inj h)
  exact eq_of_perm_of_sorted_keys (fun x => collKey x.1) _ _ pmain hs₁ hs₂ hkeys

/-! ## Remaining helper lemmas -/

theorem filter_ne_of_not_mem {n : String} {l : List String} (h : n ∉ l) :
    l.filter (fun m => m != n) = l := by
  apply List.filter_eq_self.mpr
  intro a ha
  rw [bne_iff_ne]
  intro he
  exact h (he ▸ ha)

theorem output_ne_input (e : String) :
    (("output.mp4" : String) != ("input." ++ e)) = true := by
  rw [bne_iff_ne]
  intro h
  have hd := congrArg String.data h
  rw [String.data_append] at hd
  have h1 : ("output.mp4" : String).data =
      ['o', 'u', 't', 'p', 'u', 't', '.', 'm', 'p', '4'] := rfl
  have h2 : ("input." : String).data = ['i', 'n', 'p', 'u', 't', '.'] := rfl
  rw [h1, h2] at hd
  simp at hd

/-! ## The claims -/

/-- C10: when the playlist is empty, `next()` and `prev()` are no-ops:
both return the session state completely unchanged, for every starting
state. -/
theorem next_prev_empty_noop (r : ℕ) (s : PlayerStoreState)
    (h : s.playlist = []) : next r s = s ∧ prev s = s := by
  have hlen : s.playlist.length = 0 := by simp [h]
  constructor
  · unfold next
    rw [if_pos hlen]
  · unfold prev
    rw [if_pos hlen]

theorem next_prev_empty_noop_witness :
    next 0 initialState = initialState ∧ prev initialState = initialState :=
  next_prev_empty_noop 0 initialState rfl

/-- C8: for a non-empty playlist, `prev()` with position above 3 seconds
restarts the current item (position 0, index unchanged); with position
at most 3 seconds it selects index i - 1, wrapping to n - 1 when
i - 1 < 0. -/
theorem prev_restart_or_step_back (s : PlayerStoreState)
    (hne : s.playlist ≠ []) :
    (3 < s.position → prev s = { s with position := 0 }) ∧
    (s.position ≤ 3 → prev s = selectAt s
      (if s.currentIndex - 1 < 0 then (s.playlist.length : ℤ) - 1
       else s.currentIndex - 1)) := by
  have hlen : ¬ s.playlist.length = 0 := by
    simpa [List.length_eq_zero] using hne
  constructor
  · intro hpos
    unfold prev
    rw [if_neg hlen, if_pos hpos]
  · intro hpos
    unfold prev
    rw [if_neg hlen, if_neg (not_lt.mpr hpos)]
    by_cases hidx : s.currentIndex - 1 < 0
    · rw [if_pos hidx, if_pos hidx]
    · rw [if_neg hidx, if_neg hidx]

theorem prev_restart_or_step_back_witness :
    prev exPrev5 = { exPrev5 with position := 0 } ∧
    prev exPrev1 = selectAt exPrev1 1 := by
  constructor
  · exact (prev_restart_or_step_back exPrev5 (by decide)).1 (by decide)
  · have h := (prev_restart_or_step_back exPrev1 (by decide)).2 (by decide)
    rw [h]
    decide

/-- C2 (counterexample): at the last index with shuffle and loop off,
`next()` does not transition to a state with no item selected — the
current file and index are left in place, refuting the Idle part of the
claim. -/
theorem next_at_end_counterexample :
    (next 0 exLastState).currentFile = some exFileB ∧
    (next 0 exLastState).currentIndex = 1 ∧
    (next 0 exLastState).currentFile ≠ none := by decide

/-- C2 (amended): at the last index of a non-empty catalog with shuffle
and loop off, `next()` stops playback and leaves everything else
unchanged: the current index and item stay at the last entry, and index
0 is never re-selected — but the selection is not cleared. -/
theorem next_at_end_stops_keeps_selection (r : ℕ) (s : PlayerStoreState)
    (hne : s.playlist ≠ []) (hsh : s.settings.shuffle = false)
    (hlp : s.settings.loop = false)
    (hlast : s.currentIndex = (s.playlist.length : ℤ) - 1) :
    next r s = { s with isPlaying := false } := by
  have hlen : ¬ s.playlist.length = 0 := by
    simpa [List.length_eq_zero] using hne
  unfold next
  rw [if_neg hlen, if_neg (by simp [hsh]), if_pos (by rw [hlast]; omega),
    if_neg (by simp [hlp])]

theorem next_at_end_stops_keeps_selection_witness :
    next 0 exLastState = { exLastState with isPlaying := false } :=
  next_at_end_stops_keeps_selection 0 exLastState (by decide) (by decide)
    (by decide) (by decide)

/-- C7: writing any `PlayerState` with `writeState` and reading it back
with `readState` returns the same lastFile, lastPosition and settings,
for valid settings including the boundary volumes 0 and 1. -/
theorem writeState_readState_roundtrip (st : PlayerState) (fs : FolderFS)
    (h0 : 0 ≤ st.settings.volume) (h1 : st.settings.volume ≤ 1) :
    readState (writeState st fs) = some st := by
  obtain ⟨lf, lp, ⟨v, r, sh, lo, ⟨en, fsz⟩⟩⟩ := st
  rfl

theorem writeState_readState_roundtrip_witness :
    readState (writeState exStateVol0 emptyFolder) = some exStateVol0 ∧
    readState (writeState exStateVol1 emptyFolder) = some exStateVol1 :=
  ⟨writeState_readState_roundtrip exStateVol0 emptyFolder (by decide) (by decide),
   writeState_readState_roundtrip exStateVol1 emptyFolder (by decide) (by decide)⟩

/-- C3: on folder open with a valid persisted record the code offers the
resume dialog but never copies the persisted settings into the session:
the session settings stay at their previous (default) values after
`handleFolderReady`, and also after `handleResume` or
`handleDismissResume`.  The claim (and an earlier revision of App.tsx,
which restored the settings with an explicit comment) says they are
applied immediately. -/
theorem resume_settings_not_applied :
    (handleFolderReady [exFileA] (some exSavedState) exAppStart).showResumeDialog
        = true ∧
    (handleFolderReady [exFileA] (some exSavedState) exAppStart).st.settings
        = defaultSettings ∧
    defaultSettings ≠ exSavedState.settings ∧
    (handleResume (handleFolderReady [exFileA] (some exSavedState) exAppStart)).st.settings
        = defaultSettings ∧
    (handleDismissResume (handleFolderReady [exFileA] (some exSavedState) exAppStart)).st.settings
        = defaultSettings := by decide

/-- C6: every settings mutation does trigger an immediate, unthrottled
write, but `saveCurrentState` snapshots the committed state through
`stateRef`, which still holds the pre-mutation state during the
handler.  After `setVolume 0` followed by `toggleShuffle` inside one
throttle window, the persisted file carries the volume change but not
the shuffle change, refuting the claim that both are reflected. -/
theorem settings_write_immediate_but_stale :
    (setVolume 0 exPlayingApp).persisted =
      some { lastFile := "a.mp4", lastPosition := 7,
             settings := defaultSettings } ∧
    (toggleShuffle (setVolume 0 exPlayingApp)).persisted =
      some { lastFile := "a.mp4", lastPosition := 7,
             settings := { defaultSettings with volume := 0 } } ∧
    (toggleShuffle (setVolume 0 exPlayingApp)).st.settings =
      { defaultSettings with volume := 0, shuffle := true } := by decide

/-- C5 (counterexample): scanning a folder with one readable media file
and one unreadable subdirectory does not return a partial catalog: the
whole scan fails, refuting the omit-and-continue claim. -/
theorem scan_subtree_failure_counterexample :
    scanDirectory DEFAULT_FILE_TYPES true exDegradedTree = .error () := by decide

/-- C5 (amended): there is no try/catch in `scanDir`, so if traversal of
any subdirectory fails, the error propagates and `scanDirectory` fails
as a whole — the caller receives no catalog (and no degraded-scan
signal), rather than a partial catalog. -/
theorem scan_aborts_on_subtree_failure (prefs : FileTypePreferences)
    (root : List FsEntry) (h : anyBadList root = true) :
    scanDirectory prefs true root = .error () := by
  unfold scanDirectory
  rw [if_pos rfl, scanEntries_error prefs root "" h]
  rfl

theorem scan_aborts_on_subtree_failure_witness :
    scanDirectory DEFAULT_FILE_TYPES true exDegradedTree = .error () :=
  scan_aborts_on_subtree_failure DEFAULT_FILE_TYPES exDegradedTree (by decide)

/-- C4 (counterexample): the catalog is sorted with `localeCompare`, not
byte order: the scan of a folder holding B.mp4 and a.mp4 yields the
order a.mp4, B.mp4, which is not ascending in case-sensitive byte order
(B is 0x42, a is 0x61). -/
theorem catalog_byte_order_counterexample :
    scanDirectory DEFAULT_FILE_TYPES true exMixedCaseTree =
      .ok [{ exFileA with handle := 1 }, exFileBUpper] ∧
    ¬ List.Pairwise byteOrderLe
        ([{ exFileA with handle := 1 }, exFileBUpper].map MediaFile.relativePath) := by
  constructor
  · decide
  · decide

/-- C4 (amended): the catalog returned by `scanDirectory` is ordered by
`localeCompare` on the relative paths (ascending, locale order rather
than byte order); consequently two scans of the same tree whose
traversals collect the same files in any order produce catalogs with
identical entries in the same order, up to the order of each item
subtitle-handle list (provided no two media items share a relative
path). -/
theorem catalog_locale_sorted_and_deterministic :
    (∀ (prefs : FileTypePreferences) (rootReadable : Bool)
        (root : List FsEntry) (catalog : List MediaFile),
        scanDirectory prefs rootReadable root = .ok catalog →
        List.Pairwise catalogLE catalog) ∧
    (∀ (prefs : FileTypePreferences) (root₁ root₂ : List FsEntry)
        (all₁ all₂ : List RawFile) (c₁ c₂ : List MediaFile),
        scanEntries prefs root₁ "" = .ok all₁ →
        scanEntries prefs root₂ "" = .ok all₂ →
        all₁.Perm all₂ →
        ((all₁.filter fun f => f.kind != RawKind.subtitle).map RawFile.path).Nodup →
        scanDirectory prefs true root₁ = .ok c₁ →
        scanDirectory prefs true root₂ = .ok c₂ →
        c₁.map MediaFile.core = c₂.map MediaFile.core) := by
  haveI : IsTotal MediaFile catalogLE := ⟨catalogLE_total⟩
  haveI : IsTrans MediaFile catalogLE := ⟨catalogLE_trans⟩
  constructor
  · intro prefs rr root catalog h
    unfold scanDirectory at h
    cases rr with
    | false => simp [Bind.bind, Except.bind] at h
    | true =>
        rw [if_pos rfl] at h
        cases hse : scanEntries prefs root "" with
        | error u =>
            rw [hse] at h
            exact absurd h (by simp [Bind.bind, Except.bind])
        | ok all =>
            rw [hse] at h
            have hcat : sortCatalog (buildMedia all) = catalog := by
              simpa [Bind.bind, Except.bind] using h
            rw [← hcat]
            exact List.sorted_insertionSort catalogLE (buildMedia all)
  · intro prefs root₁ root₂ all₁ all₂ c₁ c₂ h₁ h₂ hp hnd hc₁ hc₂
    have e₁ : sortCatalog (buildMedia all₁) = c₁ := by
      unfold scanDirectory at hc₁
      rw [if_pos rfl, h₁] at hc₁
      simpa [Bind.bind, Except.bind] using hc₁
    have e₂ : sortCatalog (buildMedia all₂) = c₂ := by
      unfold scanDirectory at hc₂
      rw [if_pos rfl, h₂] at hc₂
      simpa [Bind.bind, Except.bind] using hc₂
    rw [← e₁, ← e₂]
    exact sortCatalog_core_det all₁ all₂ hp hnd

theorem catalog_locale_sorted_and_deterministic_witness :
    List.Pairwise catalogLE [exFileA, exFileB] ∧
    [exFileA, exFileB].map MediaFile.core = [exFileA, exFileB].map MediaFile.core := by
  constructor
  · exact catalog_locale_sorted_and_deterministic.1 DEFAULT_FILE_TYPES true
      exTreeAB [exFileA, exFileB] (by decide)
  · exact catalog_locale_sorted_and_deterministic.2 DEFAULT_FILE_TYPES
      exTreeAB exTreeBA [exRawA, exRawB] [exRawB, exRawA]
      [exFileA, exFileB] [exFileA, exFileB]
      (by decide) (by decide) (by decide) (by decide) (by decide) (by decide)

/-- C1: when any awaited engine step of `ensurePlayable` fails — engine
load, fetching or writing the input, the transcode exec, reading the
output, or deleting a temporary — the call resolves (it never rejects)
with a blob URL for the original file bytes and `transcoded = false`.
The probe exec rejection is caught inside `probeFile` and so cannot fail
the call at all. -/
theorem ensurePlayable_error_fallback (env : CodecEnv) (file : FileData)
    (work : List String)
    (h : env.engineLoad = .error () ∨ env.fetchFile = .error ()
       ∨ env.writeFile = .error () ∨ env.transcodeExec = .error ()
       ∨ env.readOutput = .error () ∨ env.deleteInput = .error ()
       ∨ env.deleteOutput = .error ()) :
    (ensurePlayable env file work).1 =
      { url := MediaUrl.original file.id, transcoded := false } := by
  obtain ⟨http, el, ffe, fwr, ⟨hh, ha⟩, te, ro, di, dov⟩ := env
  simp only at h
  cases http with
  | false => rfl
  | true =>
      unfold ensurePlayable
      by_cases hm : mightNeedTranscoding file.name
      · rw [hm]
        dsimp only [Bool.not_true]
        rw [if_neg (by simp), if_neg (by simp)]
        cases el with
        | error u => rfl
        | ok u =>
        cases ffe with
        | error u => rfl
        | ok u =>
        cases fwr with
        | error u => rfl
        | ok u =>
        dsimp only
        by_cases hpr : (!hh && !ha) = true
        · rw [if_pos hpr]
          cases di with
          | error u => rfl
          | ok u => rfl
        · rw [if_neg hpr]
          cases te with
          | error u => rfl
          | ok u =>
          cases ro with
          | error u => rfl
          | ok u =>
          cases di with
          | error u => rfl
          | ok u =>
          cases dov with
          | error u => rfl
          | ok u =>
              exfalso
              rcases h with h | h | h | h | h | h | h <;> exact Except.noConfusion h
      · have hm2 : mightNeedTranscoding file.name = false := by simpa using hm
        rw [hm2]
        rw [if_neg (by simp), if_pos (show (!false) = true from rfl)]

theorem ensurePlayable_error_fallback_witness :
    (ensurePlayable exEnvLoadFail exMkvFile []).1 =
      { url := MediaUrl.original 5, transcoded := false } :=
  ensurePlayable_error_fallback exEnvLoadFail exMkvFile [] (Or.inl rfl)

/-- C9 (counterexample): when the probe reports HEVC and the transcode
exec fails, the catch branch returns without deleting the input file:
the engine working area still holds input.mkv after the call, refuting
the cleanup-regardless-of-failure claim. -/
theorem transcode_failure_leaves_temp_file :
    (ensurePlayable exEnvTranscodeFail exMkvFile []).2 = ["input.mkv"] ∧
    (ensurePlayable exEnvTranscodeFail exMkvFile []).2 ≠ [] := by decide

/-- C9 (amended): the temporary input and output files are deleted on
the two non-exceptional exits — the probe-negative return and the
completed transcode — so when every engine step succeeds the working
area is unchanged by the call; on a failure caught by the fallback, the
temporaries written so far are left in the working area. -/
theorem cleanup_on_success_paths (env : CodecEnv) (file : FileData)
    (work : List String)
    (hel : env.engineLoad = .ok ()) (hfe : env.fetchFile = .ok ())
    (hwr : env.writeFile = .ok ()) (hte : env.transcodeExec = .ok ())
    (hro : env.readOutput = .ok ()) (hdi : env.deleteInput = .ok ())
    (hdo : env.deleteOutput = .ok ())
    (hin : ("input." ++ lastExtComponent file.name) ∉ work)
    (hout : ("output.mp4" : String) ∉ work) :
    (ensurePlayable env file work).2 = work := by
  obtain ⟨http, el, ffe, fwr, ⟨hh, ha⟩, te, ro, di, dov⟩ := env
  simp only at hel hfe hwr hte hro hdi hdo
  subst hel hfe hwr hte hro hdi hdo
  cases http with
  | false => rfl
  | true =>
      unfold ensurePlayable
      by_cases hm : mightNeedTranscoding file.name
      · rw [hm]
        rw [if_neg (by simp), if_neg (by simp)]
        dsimp only
        by_cases hpr : (!hh && !ha) = true
        · rw [if_pos hpr]
          simp [List.filter_cons, filter_ne_of_not_mem hin]
        · rw [if_neg hpr]
          simp [List.filter_cons, output_ne_input,
            filter_ne_of_not_mem hin, filter_ne_of_not_mem hout]
      · have hm2 : mightNeedTranscoding file.name = false := by simpa using hm
        rw [hm2]
        rw [if_neg (by simp), if_pos (show (!false) = true from rfl)]

theorem cleanup_on_success_paths_witness :
    (ensurePlayable exEnvOk exMkvFile []).2 = [] :=
  cleanup_on_success_paths exEnvOk exMkvFile [] rfl rfl rfl rfl rfl rfl rfl
    (by decide) (by decide)

end DivePlay
